import Mathlib

/-!
Verification of `src/YOLOv9/Yolov9_DeepSort_MOT16.py` (Video-Analytics-).

The file embeds, in Lean, the pure content of the script:
  * `resize_and_pad` (lines 17-24): stride-aligned zero padding of a frame;
  * the detection post-filter and detection-tuple construction inside
    `inference` (lines 42-62);
  * the per-frame output filter over tracks (lines 64-67);
  * the control flow of `inference` (lines 26-88) and of the `run` loop
    (lines 114-130), with Python exceptions modelled by `Except`.
External collaborators that the script only calls (the YOLOv9 model,
`utils.general.non_max_suppression`, `deep_sort_realtime`'s tracker) are
modelled from the spec where a claim depends on their behaviour; such
definitions carry a doc comment starting with `Modelled from the spec:`.
Machine `uint8` pixels are modelled as `Nat`: the script only copies
pixel values, never does arithmetic on them, so no overflow can occur.
-/

/-- An `h × w × 3` image (numpy array of dtype uint8 in the source).
`px i j c` is the value of channel `c` of the pixel at row `i`, column `j`;
values at indices outside `h × w` are irrelevant (a numpy array carries no
data there). -/
structure Image where
  h : Nat
  w : Nat
  px : Nat → Nat → Fin 3 → Nat

/-- Lines 17-24 of the source:

    h, w = image.shape[:2]
    new_h = (h + stride - 1) // stride * stride
    new_w = (w + stride - 1) // stride * stride
    padded_image = np.zeros((new_h, new_w, 3), dtype=np.uint8)
    padded_image[:h, :w, :] = image
    return padded_image

Python `//` on nonnegative ints is `Nat` division. -/
def resize_and_pad (image : Image) (stride : Nat) : Image :=
  let new_h := (image.h + stride - 1) / stride * stride
  let new_w := (image.w + stride - 1) / stride * stride
  { h := new_h
    w := new_w
    px := fun i j c => if i < image.h ∧ j < image.w then image.px i j c else 0 }

/-- `(n + s - 1) / s * s` is a multiple of `s`. -/
theorem padDim_dvd (n s : Nat) : s ∣ (n + s - 1) / s * s :=
  ⟨(n + s - 1) / s, Nat.mul_comm _ _⟩

/-- For `1 ≤ n` and `0 < s`, `(n + s - 1) / s * s` is at least `n`. -/
theorem le_padDim (n s : Nat) (hn : 0 < n) (hs : 0 < s) :
    n ≤ (n + s - 1) / s * s := by
  have h1 : n + s - 1 = (n - 1) + s := by omega
  rw [h1, Nat.add_div_right _ hs]
  have h2 : n - 1 < ((n - 1) / s + 1) * s :=
    (Nat.div_lt_iff_lt_mul hs).mp (Nat.lt_succ_self _)
  omega

/-- For `0 < s`, `(n + s - 1) / s * s` is at most any multiple of `s`
that is `≥ n`. -/
theorem padDim_le (n s m : Nat) (hs : 0 < s) (hdvd : s ∣ m) (hnm : n ≤ m) :
    (n + s - 1) / s * s ≤ m := by
  obtain ⟨k, rfl⟩ := hdvd
  have hq : (n + s - 1) / s ≤ k := by
    have : n + s - 1 < s * k + s := by omega
    have h2 : (n + s - 1) / s < k + 1 := by
      rw [Nat.div_lt_iff_lt_mul hs]
      calc n + s - 1 < s * k + s := this
        _ = (k + 1) * s := by ring
    omega
  calc (n + s - 1) / s * s ≤ k * s := Nat.mul_le_mul_right s hq
    _ = s * k := Nat.mul_comm k s

/-- C1: for every frame with `h ≥ 1`, `w ≥ 1` and 3 channels and every
positive stride `s`, `resize_and_pad` returns an image whose height and
width are each the smallest multiple of `s` that is `≥ h` resp. `≥ w`,
whose top-left `h × w` region is pixel-for-pixel the input, and whose
remaining pixels are all zero. -/
theorem resize_and_pad_spec (img : Image) (s m i j : Nat) (c : Fin 3)
    (hs : 0 < s) (hh : 0 < img.h) (hw : 0 < img.w) :
    (s ∣ (resize_and_pad img s).h ∧ img.h ≤ (resize_and_pad img s).h ∧
      (s ∣ m → img.h ≤ m → (resize_and_pad img s).h ≤ m)) ∧
    (s ∣ (resize_and_pad img s).w ∧ img.w ≤ (resize_and_pad img s).w ∧
      (s ∣ m → img.w ≤ m → (resize_and_pad img s).w ≤ m)) ∧
    (i < img.h → j < img.w →
      (resize_and_pad img s).px i j c = img.px i j c) ∧
    (i < (resize_and_pad img s).h → j < (resize_and_pad img s).w →
      ¬(i < img.h ∧ j < img.w) → (resize_and_pad img s).px i j c = 0) := by
  refine ⟨⟨padDim_dvd _ _, le_padDim _ _ hh hs, fun hd hm => padDim_le _ _ _ hs hd hm⟩,
    ⟨padDim_dvd _ _, le_padDim _ _ hw hs, fun hd hm => padDim_le _ _ _ hs hd hm⟩,
    fun hi hj => ?_, fun _ _ hout => ?_⟩
  · simp [resize_and_pad, hi, hj]
  · simp only [resize_and_pad]
    rw [if_neg hout]

/-- Witness for C1 at the concrete image `2 × 3`, constant pixel value 7,
stride 4, candidate multiple 8, pixel position `(1, 2)`, channel 0. -/
theorem resize_and_pad_spec_witness :
    (4 ∣ (resize_and_pad ⟨2, 3, fun _ _ _ => 7⟩ 4).h ∧
      (2 : Nat) ≤ (resize_and_pad ⟨2, 3, fun _ _ _ => 7⟩ 4).h ∧
      ((4 : Nat) ∣ 8 → 2 ≤ 8 → (resize_and_pad ⟨2, 3, fun _ _ _ => 7⟩ 4).h ≤ 8)) ∧
    (4 ∣ (resize_and_pad ⟨2, 3, fun _ _ _ => 7⟩ 4).w ∧
      (3 : Nat) ≤ (resize_and_pad ⟨2, 3, fun _ _ _ => 7⟩ 4).w ∧
      ((4 : Nat) ∣ 8 → 3 ≤ 8 → (resize_and_pad ⟨2, 3, fun _ _ _ => 7⟩ 4).w ≤ 8)) ∧
    ((1 : Nat) < 2 → (2 : Nat) < 3 →
      (resize_and_pad ⟨2, 3, fun _ _ _ => 7⟩ 4).px 1 2 0 = (⟨2, 3, fun _ _ _ => 7⟩ : Image).px 1 2 0) ∧
    (1 < (resize_and_pad ⟨2, 3, fun _ _ _ => 7⟩ 4).h →
      2 < (resize_and_pad ⟨2, 3, fun _ _ _ => 7⟩ 4).w →
      ¬((1 : Nat) < 2 ∧ (2 : Nat) < 3) → (resize_and_pad ⟨2, 3, fun _ _ _ => 7⟩ 4).px 1 2 0 = 0) :=
  resize_and_pad_spec ⟨2, 3, fun _ _ _ => 7⟩ 4 8 1 2 0 (by decide) (by decide) (by decide)

/-- C9: `resize_and_pad` is idempotent: applying it a second time with the
same positive stride returns an identical image; and an image whose height
and width are already multiples of `s` keeps its shape and its in-bounds
pixel content. -/
theorem resize_and_pad_idempotent (img : Image) (s i j : Nat) (c : Fin 3)
    (hs : 0 < s) :
    resize_and_pad (resize_and_pad img s) s = resize_and_pad img s ∧
    (s ∣ img.h → s ∣ img.w →
      (resize_and_pad img s).h = img.h ∧ (resize_and_pad img s).w = img.w ∧
      (i < img.h → j < img.w →
        (resize_and_pad img s).px i j c = img.px i j c)) := by
  have aligned : ∀ n : Nat, s ∣ n → (n + s - 1) / s * s = n := by
    intro n hd
    have h1 : (n + s - 1) / s * s ≤ n := padDim_le n s n hs hd le_rfl
    rcases Nat.eq_zero_or_pos n with h0 | hn
    · subst h0
      have : (s - 1) / s = 0 := Nat.div_eq_of_lt (by omega)
      simp [this]
    · exact le_antisymm h1 (le_padDim n s hn hs)
  constructor
  · have hdh : s ∣ (resize_and_pad img s).h := padDim_dvd _ _
    have hdw : s ∣ (resize_and_pad img s).w := padDim_dvd _ _
    have hle_h : img.h ≤ (resize_and_pad img s).h := by
      rcases Nat.eq_zero_or_pos img.h with h0 | hp
      · omega
      · exact le_padDim _ _ hp hs
    have hle_w : img.w ≤ (resize_and_pad img s).w := by
      rcases Nat.eq_zero_or_pos img.w with h0 | hp
      · omega
      · exact le_padDim _ _ hp hs
    show Image.mk _ _ _ = Image.mk _ _ _
    congr 1
    · exact aligned _ hdh
    · exact aligned _ hdw
    · funext i j c
      show (if i < (resize_and_pad img s).h ∧ j < (resize_and_pad img s).w
            then (resize_and_pad img s).px i j c else 0) =
          (resize_and_pad img s).px i j c
      by_cases hout : i < (resize_and_pad img s).h ∧ j < (resize_and_pad img s).w
      · rw [if_pos hout]
      · rw [if_neg hout]
        have hin : ¬(i < img.h ∧ j < img.w) := fun hin =>
          hout ⟨lt_of_lt_of_le hin.1 hle_h, lt_of_lt_of_le hin.2 hle_w⟩
        show (0 : Nat) = if i < img.h ∧ j < img.w then img.px i j c else 0
        rw [if_neg hin]
  · intro hdh hdw
    refine ⟨aligned _ hdh, aligned _ hdw, fun hi hj => ?_⟩
    simp [resize_and_pad, hi, hj]

/-- Witness for C9 at the concrete image `5 × 2`, pixel `(i, j, c) ↦ i + j`,
stride 3, pixel position `(4, 1)`, channel 2. -/
theorem resize_and_pad_idempotent_witness :
    (resize_and_pad (resize_and_pad ⟨5, 2, fun i j _ => i + j⟩ 3) 3 =
      resize_and_pad ⟨5, 2, fun i j _ => i + j⟩ 3) ∧
    ((3 : Nat) ∣ 5 → (3 : Nat) ∣ 2 →
      (resize_and_pad ⟨5, 2, fun i j _ => i + j⟩ 3).h = 5 ∧
      (resize_and_pad ⟨5, 2, fun i j _ => i + j⟩ 3).w = 2 ∧
      ((4 : Nat) < 5 → (1 : Nat) < 2 →
        (resize_and_pad ⟨5, 2, fun i j _ => i + j⟩ 3).px 4 1 2 =
          (⟨5, 2, fun i j _ => i + j⟩ : Image).px 4 1 2)) :=
  resize_and_pad_idempotent ⟨5, 2, fun i j _ => i + j⟩ 3 4 1 2 (by decide)

/-!
## Detection post-filter (line 44 of the source)

`pred = non_max_suppression(pred, conf_thres=0.3, iou_thres=0.45, max_det=100)`
calls `utils.general.non_max_suppression`, which lives in the repository's
YOLOv9 utilities, not under `src/`.  It is modelled from the spec below.
-/

/-- A candidate box in the prediction's coordinate space: corners
`(x1, y1, x2, y2)`, confidence, class index.  Coordinates and confidences
are rationals (the source's floats enter the claims only through
comparisons and the IoU ratio). -/
structure Cand where
  x1 : ℚ
  y1 : ℚ
  x2 : ℚ
  y2 : ℚ
  conf : ℚ
  cls : Nat
deriving DecidableEq, Repr

/-- Area of the intersection of two boxes (0 when they do not overlap). -/
def interArea (a b : Cand) : ℚ :=
  max 0 (min a.x2 b.x2 - max a.x1 b.x1) * max 0 (min a.y2 b.y2 - max a.y1 b.y1)

/-- Area of a box (0 for a degenerate box). -/
def boxArea (a : Cand) : ℚ :=
  max 0 (a.x2 - a.x1) * max 0 (a.y2 - a.y1)

/-- Intersection over union of two boxes.  For two degenerate boxes the
union is `0` and the quotient is `0` by Lean's division convention. -/
def iou (a b : Cand) : ℚ :=
  interArea a b / (boxArea a + boxArea b - interArea a b)

/-- Insert `d` into a confidence-descending list, after every element of
confidence `≥ d.conf`, so that ties keep their original order (the spec:
"Ties in confidence broken by original candidate order (stable)"). -/
def insertByConf (d : Cand) : List Cand → List Cand
  | [] => [d]
  | e :: es => if e.conf < d.conf then d :: e :: es else e :: insertByConf d es

/-- Stable sort by descending confidence. -/
def sortByConfDesc (l : List Cand) : List Cand :=
  l.foldl (fun acc d => insertByConf d acc) []

/-- The greedy suppression loop: walk the confidence-descending candidates,
retain a box when fewer than `maxDet` boxes are retained and its IoU with
every already-retained box is `≤ iouThr`, stop once `maxDet` boxes are
retained or no candidate remains.  `kept` holds the retained boxes in
reverse order. -/
def nmsKeep (iouThr : ℚ) (maxDet : Nat) : List Cand → List Cand → List Cand
  | kept, [] => kept.reverse
  | kept, d :: rest =>
      if maxDet ≤ kept.length then kept.reverse
      else if kept.all (fun k => iou k d ≤ iouThr) then
        nmsKeep iouThr maxDet (d :: kept) rest
      else nmsKeep iouThr maxDet kept rest

/-- Modelled from the spec: `utils.general.non_max_suppression` (YOLOv9
utilities, not under `src/`): "given all candidate boxes with confidence ≥
a configured threshold, greedily retain the highest-confidence box,
suppress all others whose intersection-over-union with it exceeds an
overlap threshold (e.g. 0.45), repeat until no boxes remain or a maximum
detection count is reached. Ties in confidence broken by original
candidate order (stable)."  The source invokes it with
`conf_thres=0.3, iou_thres=0.45, max_det=100`. -/
def non_max_suppression (confThr iouThr : ℚ) (maxDet : Nat)
    (cands : List Cand) : List Cand :=
  nmsKeep iouThr maxDet [] (sortByConfDesc (cands.filter (fun d => confThr ≤ d.conf)))

theorem mem_insertByConf {x d : Cand} : ∀ {l : List Cand},
    x ∈ insertByConf d l ↔ x = d ∨ x ∈ l := by
  intro l
  induction l with
  | nil => simp [insertByConf]
  | cons e es ih =>
      by_cases h : e.conf < d.conf
      · simp [insertByConf, h]
      · simp only [insertByConf, if_neg h, List.mem_cons, ih]
        tauto

theorem mem_sortByConfDesc {x : Cand} {l : List Cand} :
    x ∈ sortByConfDesc l ↔ x ∈ l := by
  have key : ∀ (l acc : List Cand),
      x ∈ l.foldl (fun acc d => insertByConf d acc) acc ↔ x ∈ acc ∨ x ∈ l := by
    intro l
    induction l with
    | nil => simp
    | cons d rest ih =>
        intro acc
        simp only [List.foldl_cons, ih, mem_insertByConf, List.mem_cons]
        tauto
  simpa [sortByConfDesc] using key l []

/-- `insertByConf` preserves descending-confidence sortedness. -/
theorem insertByConf_pairwise {d : Cand} : ∀ {l : List Cand},
    l.Pairwise (fun a b => b.conf ≤ a.conf) →
    (insertByConf d l).Pairwise (fun a b => b.conf ≤ a.conf) := by
  intro l
  induction l with
  | nil => simp [insertByConf]
  | cons e es ih =>
      intro hp
      rcases List.pairwise_cons.mp hp with ⟨he, hes⟩
      by_cases h : e.conf < d.conf
      · rw [insertByConf, if_pos h]
        refine List.pairwise_cons.mpr ⟨?_, hp⟩
        intro x hx
        rcases List.mem_cons.mp hx with rfl | hx
        · exact le_of_lt h
        · exact le_trans (he x hx) (le_of_lt h)
      · rw [insertByConf, if_neg h]
        refine List.pairwise_cons.mpr ⟨?_, ih hes⟩
        intro x hx
        rcases mem_insertByConf.mp hx with rfl | hx
        · exact not_lt.mp h
        · exact he x hx

/-- `sortByConfDesc` sorts by descending confidence. -/
theorem sortByConfDesc_pairwise (l : List Cand) :
    (sortByConfDesc l).Pairwise (fun a b => b.conf ≤ a.conf) := by
  have key : ∀ (l acc : List Cand),
      acc.Pairwise (fun a b => b.conf ≤ a.conf) →
      (l.foldl (fun acc d => insertByConf d acc) acc).Pairwise
        (fun a b => b.conf ≤ a.conf) := by
    intro l
    induction l with
    | nil => intro acc h; simpa using h
    | cons d rest ih => intro acc h; exact ih _ (insertByConf_pairwise h)
  exact key l [] List.Pairwise.nil

theorem mem_nmsKeep {t : ℚ} {m : Nat} {b : Cand} : ∀ {l kept : List Cand},
    b ∈ nmsKeep t m kept l → b ∈ kept ∨ b ∈ l := by
  intro l
  induction l with
  | nil =>
      intro kept h
      simp only [nmsKeep, List.mem_reverse] at h
      exact Or.inl h
  | cons d rest ih =>
      intro kept h
      simp only [nmsKeep] at h
      split_ifs at h with h1 h2
      · exact Or.inl (List.mem_reverse.mp h)
      · rcases ih h with hk | hr
        · rcases List.mem_cons.mp hk with rfl | hk
          · exact Or.inr (List.mem_cons_self _ _)
          · exact Or.inl hk
        · exact Or.inr (List.mem_cons_of_mem _ hr)
      · rcases ih h with hk | hr
        · exact Or.inl hk
        · exact Or.inr (List.mem_cons_of_mem _ hr)

theorem length_nmsKeep {t : ℚ} {m : Nat} : ∀ {l kept : List Cand},
    kept.length ≤ m → (nmsKeep t m kept l).length ≤ m := by
  intro l
  induction l with
  | nil =>
      intro kept hk
      simpa [nmsKeep] using hk
  | cons d rest ih =>
      intro kept hk
      simp only [nmsKeep]
      split_ifs with h1 h2
      · simpa using hk
      · exact ih (by simp; omega)
      · exact ih hk

theorem pairwise_nmsKeep {t : ℚ} {m : Nat} : ∀ {l kept : List Cand},
    kept.Pairwise (fun a b => iou b a ≤ t) →
    (nmsKeep t m kept l).Pairwise (fun a b => iou a b ≤ t) := by
  intro l
  induction l with
  | nil =>
      intro kept hk
      simpa [nmsKeep, List.pairwise_reverse] using hk
  | cons d rest ih =>
      intro kept hk
      simp only [nmsKeep]
      split_ifs with h1 h2
      · simpa [List.pairwise_reverse] using hk
      · refine ih (List.pairwise_cons.mpr ⟨?_, hk⟩)
        intro k hkmem
        simp only [List.all_eq_true, decide_eq_true_eq] at h2
        exact h2 k hkmem
      · exact ih hk

theorem sorted_nmsKeep {t : ℚ} {m : Nat} : ∀ {l kept : List Cand},
    (kept.reverse ++ l).Pairwise (fun a b => b.conf ≤ a.conf) →
    (nmsKeep t m kept l).Pairwise (fun a b => b.conf ≤ a.conf) := by
  intro l
  induction l with
  | nil =>
      intro kept hk
      simpa [nmsKeep] using hk
  | cons d rest ih =>
      intro kept hk
      simp only [nmsKeep]
      split_ifs with h1 h2
      · exact List.Pairwise.sublist (List.sublist_append_left _ _) hk
      · refine ih ?_
        have : (d :: kept).reverse ++ rest = kept.reverse ++ d :: rest := by
          simp
        rw [this]
        exact hk
      · refine ih ?_
        exact List.Pairwise.sublist
          ((List.sublist_cons_self d rest).append_left kept.reverse) hk

/-- C5: the detection post-filter keeps only candidates with confidence `≥`
the configured threshold, its output never exceeds the maximum detection
count, any two retained boxes have IoU `≤` the overlap threshold (a box
overlapping a retained one by more than the threshold is suppressed), and
the retained boxes come out in descending confidence order (the greedy pass
retains the highest-confidence box first). -/
theorem non_max_suppression_spec (c t : ℚ) (m : Nat) (cands : List Cand) :
    (∀ b ∈ non_max_suppression c t m cands, b ∈ cands ∧ c ≤ b.conf) ∧
    (non_max_suppression c t m cands).length ≤ m ∧
    (non_max_suppression c t m cands).Pairwise (fun a b => iou a b ≤ t) ∧
    (non_max_suppression c t m cands).Pairwise (fun a b => b.conf ≤ a.conf) := by
  refine ⟨fun b hb => ?_, ?_, ?_, ?_⟩
  · rcases mem_nmsKeep hb with h | h
    · simp at h
    · have := mem_sortByConfDesc.mp h
      have := List.mem_filter.mp this
      exact ⟨this.1, by simpa using this.2⟩
  · exact length_nmsKeep (Nat.zero_le m)
  · exact pairwise_nmsKeep List.Pairwise.nil
  · exact sorted_nmsKeep (by simpa using sortByConfDesc_pairwise _)

/-!
## Detection tuples handed to the tracker (lines 51-59 of the source)

    detections = []
    if len(pred[0]):
        det = pred[0]
        det[:, :4] = scale_boxes(img.shape[2:], det[:, :4], im0.shape).round()
        for *xyxy, conf, cls in reversed(det):
            x1, y1, x2, y2 = map(int, xyxy)
            cls_name = names[int(cls)]
            detections.append(([x1, y1, x2 - x1, y2 - y1], conf.item(), cls_name))
-/

/-- A post-filtered detection row after `scale_boxes(...).round()` and
`int(...)`: integer corners in original-frame coordinates, confidence,
class index. -/
structure RawDet where
  x1 : Int
  y1 : Int
  x2 : Int
  y2 : Int
  conf : ℚ
  cls : Nat
deriving DecidableEq, Repr

/-- The tuple `([x, y, w, h], conf, cls_name)` appended to `detections`
and handed to `deepsort.update_tracks`. -/
structure TrackerDet where
  ltwh : Int × Int × Int × Int
  conf : ℚ
  label : String
deriving DecidableEq, Repr

/-- The tuple built from one detection row (line 59 of the source). -/
def detTuple (names : Nat → String) (d : RawDet) : TrackerDet :=
  { ltwh := (d.x1, d.y1, d.x2 - d.x1, d.y2 - d.y1)
    conf := d.conf
    label := names d.cls }

/-- Lines 51-59 of the source: iterate `reversed(det)` and append one tuple
per row (the `if len(pred[0])` guard is the identity on the empty list). -/
def buildDetections (names : Nat → String) (det : List RawDet) : List TrackerDet :=
  det.reverse.map (detTuple names)

/-- C4: the list handed to the tracker consists exactly of the tuples
`([x1, y1, x2 - x1, y2 - y1], conf, names cls)`, one per post-filtered
detection row. -/
theorem buildDetections_spec (names : Nat → String) (det : List RawDet)
    (e : TrackerDet) :
    e ∈ buildDetections names det ↔
      ∃ d ∈ det, e = ⟨(d.x1, d.y1, d.x2 - d.x1, d.y2 - d.y1), d.conf, names d.cls⟩ := by
  simp only [buildDetections, List.mem_map, List.mem_reverse, detTuple]
  constructor
  · rintro ⟨d, hd, rfl⟩
    exact ⟨d, hd, rfl⟩
  · rintro ⟨d, hd, rfl⟩
    exact ⟨d, hd, rfl⟩

/-!
## Track State Store and Lifecycle Manager

`deepsort.update_tracks` (line 62) and the `Track` objects it returns come
from the `deep_sort_realtime` tracker, the system core per the spec but not
under `src/`.  The data model and the lifecycle are modelled from the spec;
the Association Engine's matching decision is an explicit parameter
(`assoc`), since every claim below holds for an arbitrary association
outcome.
-/

/-- Lifecycle state of a track. -/
inductive TrackState where
  | Tentative
  | Confirmed
  | Deleted
deriving DecidableEq, Repr

/-- Modelled from the spec: a Track of `deep_sort_realtime` — "unique
identifier (monotonic, never reused), ... current lifecycle state
(`Tentative`, `Confirmed`, `Deleted`), hit count, time-since-last-update,
class label".  The motion state and appearance embedding play no role in
any claim and are omitted. -/
structure Track where
  track_id : Nat
  state : TrackState
  hits : Nat
  time_since_update : Nat
  det_class : String
deriving DecidableEq, Repr

/-- `track.is_confirmed()` of the tracker library. -/
def Track.is_confirmed (t : Track) : Bool :=
  t.state = TrackState.Confirmed

/-- Modelled from the spec: the Track State Store — "the mapping from
identifier to Track, owned exclusively by the tracker", together with the
explicit fresh-identifier counter of the design notes. -/
structure TrackerState where
  tracks : List Track
  next_id : Nat
deriving DecidableEq, Repr

/-- Tracker configuration: max age before deletion (per lifecycle state,
"tentative tracks expire faster") and the consecutive-hit threshold for
confirmation (`max_age=30, n_init=3` at line 109 of the source). -/
structure TrackerCfg where
  max_age : Nat
  max_age_tentative : Nat
  n_init : Nat
deriving DecidableEq, Repr

/-- An association outcome: index pairs (track position, detection
position) produced by the Association Engine for the given tracks and
detections. -/
abbrev Assoc := List Track → List TrackerDet → List (Nat × Nat)

/-- An association only ever pairs an existing track position with an
existing detection position. -/
def ValidAssoc (assoc : Assoc) : Prop :=
  ∀ ts ds, ∀ p ∈ assoc ts ds, p.1 < ts.length ∧ p.2 < ds.length

/-- Does the association match the track at position `i`? -/
def matchedTrackIdx (pairs : List (Nat × Nat)) (i : Nat) : Bool :=
  pairs.any (fun p => p.1 == i)

/-- Does the association match the detection at position `j`? -/
def matchedDetIdx (pairs : List (Nat × Nat)) (j : Nat) : Bool :=
  pairs.any (fun p => p.2 == j)

/-- Modelled from the spec (§4.5 Track Lifecycle Manager): one track's
update for one cycle.  Matched: reset time-since-last-update, increment the
hit count, promote `Tentative → Confirmed` at the hit threshold.
Unmatched: increment time-since-last-update and delete (drop from the
store) once it exceeds the state-dependent max age. -/
def stepTrack (cfg : TrackerCfg) (matched : Bool) (t : Track) : Option Track :=
  if matched then
    let hits := t.hits + 1
    some { t with
      hits := hits
      time_since_update := 0
      state := if t.state = TrackState.Tentative ∧ cfg.n_init ≤ hits
               then TrackState.Confirmed else t.state }
  else
    let tsu := t.time_since_update + 1
    let limit := if t.state = TrackState.Tentative then cfg.max_age_tentative
                 else cfg.max_age
    if limit < tsu then none else some { t with time_since_update := tsu }

/-- Modelled from the spec: apply `stepTrack` to the tracks at positions
`i, i+1, ...`, dropping the deleted ones. -/
def agedTracks (cfg : TrackerCfg) (pairs : List (Nat × Nat)) :
    Nat → List Track → List Track
  | _, [] => []
  | i, t :: ts =>
      (stepTrack cfg (matchedTrackIdx pairs i) t).toList
        ++ agedTracks cfg pairs (i + 1) ts

/-- The detections the association left unmatched, in order. -/
def unmatchedDets (pairs : List (Nat × Nat)) : Nat → List TrackerDet → List TrackerDet
  | _, [] => []
  | j, d :: ds =>
      if matchedDetIdx pairs j then unmatchedDets pairs (j + 1) ds
      else d :: unmatchedDets pairs (j + 1) ds

/-- Modelled from the spec: "instantiate a new `Tentative` Track with a
fresh, never-reused identifier, ... hit count = 1". -/
def newTrack (id : Nat) (d : TrackerDet) : Track :=
  { track_id := id
    state := TrackState.Tentative
    hits := 1
    time_since_update := 0
    det_class := d.label }

/-- Spawn one new track per unmatched detection, with consecutive fresh
identifiers starting at the store's counter. -/
def spawnTracks (id : Nat) : List TrackerDet → List Track
  | [] => []
  | d :: ds => newTrack id d :: spawnTracks (id + 1) ds

/-- The tracks created by one cycle. -/
def frameNewTracks (assoc : Assoc) (st : TrackerState) (dets : List TrackerDet) :
    List Track :=
  spawnTracks st.next_id (unmatchedDets (assoc st.tracks dets) 0 dets)

/-- Modelled from the spec: `deepsort.update_tracks(detections, ...)` —
one full cycle of the Association Engine (outcome given by `assoc`) and the
Track Lifecycle Manager over the Track State Store. -/
def update_tracks (cfg : TrackerCfg) (assoc : Assoc) (st : TrackerState)
    (dets : List TrackerDet) : TrackerState :=
  let pairs := assoc st.tracks dets
  let survivors := agedTracks cfg pairs 0 st.tracks
  let newTracks := frameNewTracks assoc st dets
  { tracks := survivors ++ newTracks
    next_id := st.next_id + newTracks.length }

/-- Fold `update_tracks` over the per-frame detection lists of a run. -/
def runTracker (cfg : TrackerCfg) (assoc : Assoc) :
    TrackerState → List (List TrackerDet) → TrackerState
  | st, [] => st
  | st, ds :: rest => runTracker cfg assoc (update_tracks cfg assoc st ds) rest

/-- The identifiers of every track created during a run, in creation
order. -/
def createdIds (cfg : TrackerCfg) (assoc : Assoc) :
    TrackerState → List (List TrackerDet) → List Nat
  | _, [] => []
  | st, ds :: rest =>
      (frameNewTracks assoc st ds).map Track.track_id
        ++ createdIds cfg assoc (update_tracks cfg assoc st ds) rest

/-!
## Per-frame output filter (lines 64-67 of the source)

    for track in tracks:
        if not track.is_confirmed() or track.time_since_update > 0:
            continue
        ...
        annotator.box_label(bbox, label, color=cls_color)
-/

/-- The tracks the per-frame loop actually draws: exactly those not skipped
by line 66. -/
def drawnTracks (tracks : List Track) : List Track :=
  tracks.filter (fun t => !(!t.is_confirmed || decide (t.time_since_update > 0)))

/-!
## Control flow of `inference` (lines 26-88) and `run` (lines 114-130)

Python exceptions are modelled by `Except`: a raised exception aborts the
function it occurs in and propagates, since neither `inference` nor `run`
contains a `try`.
-/

/-- The Python exceptions relevant to the claims. -/
inductive PyErr where
  /-- tuple-unpacking failure of `h, w = image.shape[:2]` for an array
  with fewer than two dimensions. -/
  | valueError
  /-- numpy broadcast failure of `padded_image[:h, :w, :] = image` when
  the input is not `h × w × 3`. -/
  | broadcastError
  /-- an exception raised by `model(img)` (line 43): the detector
  capability failed. -/
  | detectorError
deriving DecidableEq, Repr

/-- A raw numpy array as delivered by `cap.read()`: a shape and pixel
data.  Only 3-channel pixel data can reach the pipeline, so the data is
carried as in `Image`. -/
structure NDFrame where
  shape : List Nat
  px : Nat → Nat → Fin 3 → Nat

/-- Reading an `NDFrame` as an `h × w × 3` image, with `resize_and_pad`'s
failure modes made explicit: `h, w = image.shape[:2]` raises for an array
of fewer than two dimensions, and `padded_image[:h, :w, :] = image` raises
a broadcast error when the input is not `h × w × 3` (numpy would also
accept some degenerate trailing-1 shapes; video frames are always
`h × w × 3` and no claim touches the other shapes). -/
def asImage (f : NDFrame) : Except PyErr Image :=
  match f.shape with
  | h :: w :: rest =>
      if rest = [3] then .ok ⟨h, w, f.px⟩ else .error .broadcastError
  | _ => .error .valueError

/-- `resize_and_pad` applied to a raw frame, with its failure modes. -/
def resize_and_padChecked (f : NDFrame) (stride : Nat) : Except PyErr Image :=
  (asImage f).map (fun img => resize_and_pad img stride)

/-- The external collaborators `inference` and `run` call, as parameters:
the detector capability (`model(img)[0]`, which may raise), the
`scale_boxes(...).round()` + `int(...)` coordinate mapping, the class-name
dictionary, the model stride, the tracker configuration and association
engine, and the two drawing primitives (`annotator.box_label`,
`cv2.putText`). -/
structure PipelineEnv where
  detect : Image → Except PyErr (List Cand)
  scaleRound : Cand → RawDet
  names : Nat → String
  stride : Nat
  cfg : TrackerCfg
  assoc : Assoc
  drawBox : Image → Track → Image
  drawFPS : Image → Image

/-- Lines 26-88 of the source, as one per-frame step: resize and pad the
frame, run the detector, post-filter with
`non_max_suppression(conf_thres=0.3, iou_thres=0.45, max_det=100)`,
rescale and build the detection tuples, update the tracker, and draw the
surviving output tracks and the FPS text onto the copy `im0`.  Returns the
updated tracker state, the annotated image and the tracks drawn. -/
def inference (env : PipelineEnv) (frame : NDFrame) (st : TrackerState) :
    Except PyErr (TrackerState × Image × List Track) :=
  match asImage frame with
  | .error e => .error e
  | .ok img0 =>
      match env.detect (resize_and_pad img0 env.stride) with
      | .error e => .error e
      | .ok cands =>
          let det := non_max_suppression (3/10) (9/20) 100 cands
          let detections := buildDetections env.names (det.map env.scaleRound)
          let st' := update_tracks env.cfg env.assoc st detections
          let drawn := drawnTracks st'.tracks
          let im0 := env.drawFPS (drawn.foldl env.drawBox img0)
          .ok (st', im0, drawn)

/-- Lines 114-130 of the source: process the frames in order, threading
the tracker state; `inference` is called outside any `try`, so an
exception inside it aborts the loop. -/
def runLoop (env : PipelineEnv) : TrackerState → List NDFrame → Except PyErr TrackerState
  | st, [] => .ok st
  | st, f :: rest =>
      match inference env f st with
      | .error e => .error e
      | .ok (st', _, _) => runLoop env st' rest

/-!
## Buffers `inference` writes (for the frame-effect claim)

Each assignment in lines 31-88 writes exactly one named numpy buffer; the
model replays them as whole-store updates, universally quantified over the
external drawing primitives.
-/

/-- The numpy buffers `inference` touches: the caller's `image`, the
freshly allocated `padded_image`, and the copy `im0`. -/
structure FrameBuffers where
  image : Image
  padded : Image
  im0 : Image

/-- Lines 31-88 of the source as buffer writes:

  * line 31: `padded_image = resize_and_pad(image, ...)` writes `padded`
    (and `resize_and_pad` itself only reads `image`, writing the array
    `np.zeros(...)` it freshly allocates);
  * lines 34-40 build the input tensor from `padded_image` (fresh arrays:
    `::-1` and `transpose` are views, `ascontiguousarray` and
    `torch.from_numpy(...).float()` copy);
  * line 47: `im0 = image.copy()` writes `im0`;
  * lines 65-82: `annotator.box_label(...)` draws into `im0` (the
    `Annotator` was built over `im0` at line 48);
  * line 86: `cv2.putText(im0, ...)` draws into `im0`;
  * line 88: `annotator.result()` returns `im0`.

`boxLabels` and `putText` stand for the two external drawing primitives. -/
def inferenceBuffers (stride : Nat) (boxLabels : Image → Image)
    (putText : Image → Image) (bufs : FrameBuffers) : FrameBuffers × Image :=
  let bufs := { bufs with padded := resize_and_pad bufs.image stride }
  let bufs := { bufs with im0 := bufs.image }
  let bufs := { bufs with im0 := boxLabels bufs.im0 }
  let bufs := { bufs with im0 := putText bufs.im0 }
  (bufs, bufs.im0)

/-!
## Shared concrete instances used by the witnesses and counterexamples
-/

/-- A concrete environment: the detector returns no candidates, the
association matches nothing, the drawing primitives are the identity, and
the tracker uses `max_age=30, n_init=3` as at line 109 of the source. -/
def env0 : PipelineEnv :=
  { detect := fun _ => .ok []
    scaleRound := fun _ => ⟨0, 0, 0, 0, 0, 0⟩
    names := fun _ => "person"
    stride := 32
    cfg := { max_age := 30, max_age_tentative := 1, n_init := 3 }
    assoc := fun _ _ => []
    drawBox := fun im _ => im
    drawFPS := fun im => im }

/-- `env0` with a detector that raises. -/
def envFail : PipelineEnv :=
  { env0 with detect := fun _ => .error .detectorError }

/-- A well-formed `4 × 4 × 3` black frame. -/
def goodFrame : NDFrame := ⟨[4, 4, 3], fun _ _ _ => 0⟩

/-- A zero-dimensional array: no spatial dimensions at all. -/
def badFrame : NDFrame := ⟨[], fun _ _ _ => 0⟩

/-- A confirmed track, freshly matched. -/
def tr0 : Track := ⟨5, TrackState.Confirmed, 3, 0, "person"⟩

/-- A store holding `tr0`, with fresh-identifier counter 6. -/
def st1 : TrackerState := ⟨[tr0], 6⟩

/-- A concrete detection tuple. -/
def det0 : TrackerDet := ⟨(0, 0, 10, 10), 1/2, "person"⟩

/-!
## C10 — inference never mutates its input frame
-/

/-- C10: whatever the external drawing primitives do, every buffer write
of `inference` targets `padded_image` or the copy `im0`; the caller's
`image` buffer holds the same pixels after the call as before, and the
returned annotated image is the drawn-over copy, not the input. -/
theorem inference_preserves_input (stride : Nat)
    (boxLabels putText : Image → Image) (bufs : FrameBuffers) :
    (inferenceBuffers stride boxLabels putText bufs).1.image = bufs.image ∧
    (inferenceBuffers stride boxLabels putText bufs).2 =
      putText (boxLabels bufs.image) :=
  ⟨rfl, rfl⟩

/-!
## C2 — per-frame output filter
-/

theorem mem_drawnTracks {t : Track} {ts : List Track} :
    t ∈ drawnTracks ts ↔
      t ∈ ts ∧ t.is_confirmed = true ∧ t.time_since_update = 0 := by
  simp only [drawnTracks, List.mem_filter, Bool.not_or, Bool.and_eq_true,
    Bool.not_not, Bool.not_eq_true', decide_eq_false_iff_not, not_lt,
    Nat.le_zero, and_assoc]

/-- C2: for every frame `inference` processes, a track is in the per-frame
annotated output iff it is Confirmed with `time_since_update = 0` in the
updated store; every other track of the store is excluded. -/
theorem inference_output_filter (env : PipelineEnv) (frame : NDFrame)
    (st st' : TrackerState) (im : Image) (drawn : List Track) (t : Track)
    (h : inference env frame st = .ok (st', im, drawn)) :
    t ∈ drawn ↔
      t ∈ st'.tracks ∧ t.is_confirmed = true ∧ t.time_since_update = 0 := by
  unfold inference at h
  split at h
  · exact absurd h (by simp)
  · split at h
    · exact absurd h (by simp)
    · simp only [Except.ok.injEq, Prod.mk.injEq] at h
      obtain ⟨h1, -, h3⟩ := h
      subst h1
      subst h3
      exact mem_drawnTracks

/-- Witness for C2: a concrete frame through `inference` — the store's one
track aged to `time_since_update = 1` and was accordingly excluded from
the (empty) output. -/
theorem inference_output_filter_witness :
    (⟨5, TrackState.Confirmed, 3, 1, "person"⟩ : Track) ∈ ([] : List Track) ↔
      (⟨5, TrackState.Confirmed, 3, 1, "person"⟩ : Track) ∈
          (⟨[⟨5, TrackState.Confirmed, 3, 1, "person"⟩], 6⟩ : TrackerState).tracks ∧
        (⟨5, TrackState.Confirmed, 3, 1, "person"⟩ : Track).is_confirmed = true ∧
        (⟨5, TrackState.Confirmed, 3, 1, "person"⟩ : Track).time_since_update = 0 :=
  inference_output_filter env0 goodFrame st1
    ⟨[⟨5, TrackState.Confirmed, 3, 1, "person"⟩], 6⟩ ⟨4, 4, goodFrame.px⟩ []
    ⟨5, TrackState.Confirmed, 3, 1, "person"⟩ rfl

/-!
## C6 — detector failure is fatal
-/

/-- C6: if the detector raises on a frame, the failure is fatal: it
surfaces to `inference`'s caller as that very error, no tracker update is
attempted for the frame (no new state is produced), and the run loop
aborts with the error, leaving the caller's tracker state as it was
before the frame. -/
theorem inference_detector_failure (env : PipelineEnv) (frame : NDFrame)
    (st : TrackerState) (img0 : Image) (e : PyErr) (rest : List NDFrame)
    (hA : asImage frame = .ok img0)
    (hD : env.detect (resize_and_pad img0 env.stride) = .error e) :
    inference env frame st = .error e ∧
    runLoop env st (frame :: rest) = .error e := by
  have hinf : inference env frame st = .error e := by
    unfold inference
    simp only [hA, hD]
  refine ⟨hinf, ?_⟩
  simp only [runLoop, hinf]

/-- Witness for C6 at a concrete failing detector. -/
theorem inference_detector_failure_witness :
    inference envFail goodFrame st1 = .error PyErr.detectorError ∧
    runLoop envFail st1 [goodFrame] = .error PyErr.detectorError :=
  inference_detector_failure envFail goodFrame st1 ⟨4, 4, goodFrame.px⟩
    PyErr.detectorError [] rfl rfl

/-!
## C7 — no detections is a valid case
-/

/-- A valid association produces no pairs against an empty detection
list. -/
theorem assoc_nil {assoc : Assoc} (hV : ValidAssoc assoc) (ts : List Track) :
    assoc ts [] = [] := by
  rcases h : assoc ts [] with _ | ⟨p, ps⟩
  · rfl
  · have hp := hV ts [] p (h ▸ List.mem_cons_self p ps)
    simp only [List.length_nil] at hp
    exact absurd hp.2 (Nat.not_lt_zero _)

theorem stepTrack_true_eq (cfg : TrackerCfg) (t : Track) :
    stepTrack cfg true t = some { t with
      hits := t.hits + 1
      time_since_update := 0
      state := if t.state = TrackState.Tentative ∧ cfg.n_init ≤ t.hits + 1
               then TrackState.Confirmed else t.state } := rfl

theorem stepTrack_false_eq (cfg : TrackerCfg) (t : Track) :
    stepTrack cfg false t =
      if (if t.state = TrackState.Tentative then cfg.max_age_tentative
          else cfg.max_age) < t.time_since_update + 1
      then none
      else some { t with time_since_update := t.time_since_update + 1 } := rfl

/-- A track that survives an unmatched cycle is its old self with
`time_since_update` incremented. -/
theorem stepTrack_false_some {cfg : TrackerCfg} {t t' : Track}
    (h : stepTrack cfg false t = some t') :
    t' = { t with time_since_update := t.time_since_update + 1 } := by
  rw [stepTrack_false_eq] at h
  by_cases hc : (if t.state = TrackState.Tentative then cfg.max_age_tentative
      else cfg.max_age) < t.time_since_update + 1
  · rw [if_pos hc] at h
    exact absurd h (by simp)
  · rw [if_neg hc] at h
    injection h with h'
    exact h'.symm

/-- `stepTrack` never rewrites the identifier. -/
theorem stepTrack_id {cfg : TrackerCfg} {b : Bool} {t t' : Track}
    (h : stepTrack cfg b t = some t') : t'.track_id = t.track_id := by
  cases b
  · rw [stepTrack_false_some h]
  · rw [stepTrack_true_eq] at h
    injection h with h'
    rw [← h']

theorem mem_agedTracks_nil {cfg : TrackerCfg} {t' : Track} :
    ∀ {ts : List Track} {i : Nat}, t' ∈ agedTracks cfg [] i ts →
      ∃ t ∈ ts, stepTrack cfg false t = some t' := by
  intro ts
  induction ts with
  | nil =>
      intro i h
      simp [agedTracks] at h
  | cons t ts ih =>
      intro i h
      simp only [agedTracks] at h
      rw [List.mem_append] at h
      rcases h with h | h
      · refine ⟨t, List.mem_cons_self _ _, ?_⟩
        have hm : matchedTrackIdx ([] : List (Nat × Nat)) i = false := rfl
        rw [hm] at h
        cases hs : stepTrack cfg false t with
        | none =>
            rw [hs] at h
            simp at h
        | some u =>
            rw [hs] at h
            have h' : t' = u := by simpa using h
            subst h'
            rfl
      · obtain ⟨u, hu, hsu⟩ := ih h
        exact ⟨u, List.mem_cons_of_mem _ hu, hsu⟩

/-- C7: a frame whose post-filtered prediction list is empty is a valid
case, not an error: `inference` succeeds and still invokes the tracker
update, with the empty detection list; no track is matched and none is
spawned — the counter is unchanged and every surviving track is its old
self with `time_since_update` incremented. -/
theorem inference_no_detections (env : PipelineEnv) (frame : NDFrame)
    (st : TrackerState) (img0 : Image) (cands : List Cand) (t' : Track)
    (hV : ValidAssoc env.assoc)
    (hA : asImage frame = .ok img0)
    (hD : env.detect (resize_and_pad img0 env.stride) = .ok cands)
    (hN : non_max_suppression (3/10) (9/20) 100 cands = []) :
    inference env frame st =
      .ok (update_tracks env.cfg env.assoc st [],
        env.drawFPS ((drawnTracks (update_tracks env.cfg env.assoc st []).tracks).foldl
          env.drawBox img0),
        drawnTracks (update_tracks env.cfg env.assoc st []).tracks) ∧
    (update_tracks env.cfg env.assoc st []).next_id = st.next_id ∧
    (t' ∈ (update_tracks env.cfg env.assoc st []).tracks →
      ∃ t ∈ st.tracks, t' = { t with time_since_update := t.time_since_update + 1 }) := by
  refine ⟨?_, ?_, ?_⟩
  · unfold inference
    simp only [hA, hD, hN, List.map_nil, buildDetections, List.reverse_nil]
  · have hnil : env.assoc st.tracks [] = [] := assoc_nil hV st.tracks
    simp [update_tracks, frameNewTracks, hnil, unmatchedDets, spawnTracks]
  · intro ht'
    have hnil : env.assoc st.tracks [] = [] := assoc_nil hV st.tracks
    simp only [update_tracks, frameNewTracks, hnil, unmatchedDets, spawnTracks,
      List.append_nil] at ht'
    obtain ⟨t, htm, hst⟩ := mem_agedTracks_nil ht'
    exact ⟨t, htm, stepTrack_false_some hst⟩

/-- Witness for C7: a concrete frame with an empty post-filtered
prediction list, over a store holding one confirmed track. -/
theorem inference_no_detections_witness :
    inference env0 goodFrame st1 =
      .ok (update_tracks env0.cfg env0.assoc st1 [],
        env0.drawFPS ((drawnTracks (update_tracks env0.cfg env0.assoc st1 []).tracks).foldl
          env0.drawBox ⟨4, 4, goodFrame.px⟩),
        drawnTracks (update_tracks env0.cfg env0.assoc st1 []).tracks) ∧
    (update_tracks env0.cfg env0.assoc st1 []).next_id = st1.next_id ∧
    ((⟨5, TrackState.Confirmed, 3, 1, "person"⟩ : Track) ∈
        (update_tracks env0.cfg env0.assoc st1 []).tracks →
      ∃ t ∈ st1.tracks,
        (⟨5, TrackState.Confirmed, 3, 1, "person"⟩ : Track) =
          { t with time_since_update := t.time_since_update + 1 }) :=
  inference_no_detections env0 goodFrame st1 ⟨4, 4, goodFrame.px⟩ []
    ⟨5, TrackState.Confirmed, 3, 1, "person"⟩
    (by intro ts ds p hp; simp [env0] at hp) rfl rfl rfl

/-!
## C3 — malformed frames
-/

/-- C3 (counterexample to the claim as stated): with a zero-dimensional
first frame the run loop aborts with the uncaught error instead of
skipping the frame and continuing with the next one — processed alone,
the well-formed second frame yields a normal `ok` result, but behind the
malformed frame it is never reached. -/
theorem runLoop_bad_frame_counterexample :
    runLoop env0 st1 [badFrame, goodFrame] = .error PyErr.valueError ∧
    runLoop env0 st1 [goodFrame] =
      .ok ⟨[⟨5, TrackState.Confirmed, 3, 1, "person"⟩], 6⟩ :=
  ⟨rfl, rfl⟩

/-- C3 (amended): a frame with no spatial dimensions makes the
preprocessor's shape unpacking raise; the exception is uncaught, so
`inference` fails with it and the run loop aborts without processing any
later frame (the frame is not skipped); no tracker state is produced for
that frame, so the caller keeps the store from before; and for every
well-formed `h × w × 3` input — including empty `0 × 0 × 3` frames — the
preprocessor succeeds with no error path. -/
theorem invalid_frame_fatal (env : PipelineEnv) (st : TrackerState)
    (f g : NDFrame) (rest : List NDFrame) (h w stride : Nat)
    (hf : f.shape = []) (hg : g.shape = [h, w, 3]) :
    inference env f st = .error PyErr.valueError ∧
    runLoop env st (f :: rest) = .error PyErr.valueError ∧
    resize_and_padChecked g stride = .ok (resize_and_pad ⟨h, w, g.px⟩ stride) := by
  have hA : asImage f = .error PyErr.valueError := by
    unfold asImage
    rw [hf]
  have h1 : inference env f st = .error PyErr.valueError := by
    unfold inference
    simp only [hA]
  refine ⟨h1, ?_, ?_⟩
  · simp only [runLoop, h1]
  · unfold resize_and_padChecked asImage
    rw [hg]
    rfl

/-- Witness for the amended C3 at the concrete frames. -/
theorem invalid_frame_fatal_witness :
    inference env0 badFrame st1 = .error PyErr.valueError ∧
    runLoop env0 st1 (badFrame :: [goodFrame]) = .error PyErr.valueError ∧
    resize_and_padChecked goodFrame 32 =
      .ok (resize_and_pad ⟨4, 4, goodFrame.px⟩ 32) :=
  invalid_frame_fatal env0 st1 badFrame goodFrame [goodFrame] 4 4 32 rfl rfl

/-!
## C8 — identifier uniqueness across a run
-/

/-- Ageing a store keeps the surviving identifiers, in order: the id list
of the survivors is a sublist of the old id list. -/
theorem agedTracks_ids_sublist (cfg : TrackerCfg) (pairs : List (Nat × Nat)) :
    ∀ (ts : List Track) (i : Nat),
      ((agedTracks cfg pairs i ts).map Track.track_id).Sublist
        (ts.map Track.track_id) := by
  intro ts
  induction ts with
  | nil => intro i; simp [agedTracks]
  | cons t ts ih =>
      intro i
      simp only [agedTracks, List.map_append, List.map_cons]
      cases hs : stepTrack cfg (matchedTrackIdx pairs i) t with
      | none =>
          simp only [Option.toList_none, List.map_nil, List.nil_append]
          exact (ih (i + 1)).trans (List.sublist_cons_self _ _)
      | some t' =>
          simp only [Option.toList_some, List.map_cons, List.map_nil,
            List.singleton_append]
          rw [stepTrack_id hs]
          exact List.Sublist.cons₂ _ (ih (i + 1))

/-- Spawned tracks carry the consecutive identifiers
`id, id + 1, ..., id + k - 1`. -/
theorem spawnTracks_ids (ds : List TrackerDet) : ∀ n : Nat,
    (spawnTracks n ds).map Track.track_id = List.range' n ds.length := by
  induction ds with
  | nil => intro n; rfl
  | cons d ds ih =>
      intro n
      simp only [spawnTracks, List.map_cons, newTrack, List.length_cons,
        List.range'_succ]
      rw [ih (n + 1)]

theorem spawnTracks_length (ds : List TrackerDet) : ∀ n : Nat,
    (spawnTracks n ds).length = ds.length := by
  induction ds with
  | nil => intro n; rfl
  | cons d ds ih => intro n; simp [spawnTracks, ih (n + 1)]

theorem frameNewTracks_ids (assoc : Assoc) (st : TrackerState)
    (dets : List TrackerDet) :
    (frameNewTracks assoc st dets).map Track.track_id =
      List.range' st.next_id (frameNewTracks assoc st dets).length := by
  unfold frameNewTracks
  rw [spawnTracks_ids, spawnTracks_length]

/-- Well-formedness of the store: every live identifier is below the
counter and no two live tracks share one. -/
def TrackerState.Wf (st : TrackerState) : Prop :=
  (∀ t ∈ st.tracks, t.track_id < st.next_id) ∧
  (st.tracks.map Track.track_id).Nodup

theorem update_tracks_wf {cfg : TrackerCfg} {assoc : Assoc} {st : TrackerState}
    {dets : List TrackerDet} (h : st.Wf) :
    (update_tracks cfg assoc st dets).Wf := by
  obtain ⟨hlt, hnd⟩ := h
  have hagl := agedTracks_ids_sublist cfg (assoc st.tracks dets) st.tracks 0
  have hnew := frameNewTracks_ids assoc st dets
  constructor
  · intro t ht
    simp only [update_tracks, List.mem_append] at ht
    simp only [update_tracks]
    rcases ht with ht | ht
    · have hmem := hagl.subset (List.mem_map_of_mem Track.track_id ht)
      obtain ⟨t0, ht0, hid⟩ := List.mem_map.mp hmem
      have := hlt t0 ht0
      omega
    · have hmem := List.mem_map_of_mem Track.track_id ht
      rw [hnew, List.mem_range'_1] at hmem
      omega
  · simp only [update_tracks, List.map_append]
    refine List.Nodup.append (hnd.sublist hagl) ?_ ?_
    · rw [hnew]
      exact List.nodup_range' _ _
    · intro x hx hx'
      obtain ⟨t0, ht0, hid⟩ := List.mem_map.mp (hagl.subset hx)
      rw [hnew, List.mem_range'_1] at hx'
      have := hlt t0 ht0
      omega

theorem runTracker_wf {cfg : TrackerCfg} {assoc : Assoc} :
    ∀ {frames : List (List TrackerDet)} {st : TrackerState}, st.Wf →
      (runTracker cfg assoc st frames).Wf := by
  intro frames
  induction frames with
  | nil => intro st h; exact h
  | cons ds rest ih => intro st h; exact ih (update_tracks_wf h)

/-- Every identifier created during a run is at least the starting
counter. -/
theorem createdIds_lower {cfg : TrackerCfg} {assoc : Assoc} :
    ∀ {frames : List (List TrackerDet)} {st : TrackerState} {x : Nat},
      x ∈ createdIds cfg assoc st frames → st.next_id ≤ x := by
  intro frames
  induction frames with
  | nil => intro st x h; simp [createdIds] at h
  | cons ds rest ih =>
      intro st x h
      simp only [createdIds, List.mem_append] at h
      rcases h with h | h
      · rw [frameNewTracks_ids, List.mem_range'_1] at h
        exact h.1
      · have := ih h
        simp only [update_tracks] at this
        omega

/-- No identifier is ever created twice during a run. -/
theorem createdIds_nodup (cfg : TrackerCfg) (assoc : Assoc) :
    ∀ (frames : List (List TrackerDet)) (st : TrackerState),
      (createdIds cfg assoc st frames).Nodup := by
  intro frames
  induction frames with
  | nil => intro st; simp [createdIds]
  | cons ds rest ih =>
      intro st
      simp only [createdIds]
      refine List.Nodup.append ?_ (ih _) ?_
      · rw [frameNewTracks_ids]
        exact List.nodup_range' _ _
      · intro x hx hx'
        rw [frameNewTracks_ids, List.mem_range'_1] at hx
        have hlow := createdIds_lower hx'
        simp only [update_tracks] at hlow
        omega

/-- Every survivor of an ageing pass is the lifecycle step of a specific
track of the old store. -/
theorem mem_agedTracks {cfg : TrackerCfg} {pairs : List (Nat × Nat)} {t' : Track} :
    ∀ {ts : List Track} {i : Nat}, t' ∈ agedTracks cfg pairs i ts →
      ∃ t ∈ ts, ∃ b, stepTrack cfg b t = some t' := by
  intro ts
  induction ts with
  | nil =>
      intro i h
      simp [agedTracks] at h
  | cons t ts ih =>
      intro i h
      simp only [agedTracks] at h
      rw [List.mem_append] at h
      rcases h with h | h
      · refine ⟨t, List.mem_cons_self _ _, matchedTrackIdx pairs i, ?_⟩
        cases hs : stepTrack cfg (matchedTrackIdx pairs i) t with
        | none =>
            rw [hs] at h
            simp at h
        | some u =>
            rw [hs] at h
            have h' : t' = u := by simpa using h
            subst h'
            rfl
      · obtain ⟨u, hu, b, hsu⟩ := ih h
        exact ⟨u, List.mem_cons_of_mem _ hu, b, hsu⟩

/-- One cycle never rewrites an identifier: each track of the updated
store is either the lifecycle step of a specific track of the old store,
carrying that very track's identifier, or one of the cycle's freshly
spawned tracks. -/
theorem mem_update_tracks_step {cfg : TrackerCfg} {assoc : Assoc}
    {st : TrackerState} {dets : List TrackerDet} {t' : Track}
    (h : t' ∈ (update_tracks cfg assoc st dets).tracks) :
    (∃ t ∈ st.tracks, ∃ b, stepTrack cfg b t = some t' ∧
      t'.track_id = t.track_id) ∨
      t' ∈ frameNewTracks assoc st dets := by
  simp only [update_tracks, List.mem_append] at h
  rcases h with h | h
  · obtain ⟨t, ht, b, hstep⟩ := mem_agedTracks h
    exact Or.inl ⟨t, ht, b, hstep, stepTrack_id hstep⟩
  · exact Or.inr h

/-- C8: for a run starting from the fresh tracker (line 108 of the
source), the identifiers created over the whole run are pairwise distinct
— no two tracks ever created share one, and a deleted identifier is never
reassigned; the live store never holds two tracks with the same
identifier; and identifiers are immutable once assigned: an update splits
the store into the aged survivors followed by the fresh spawns, the
survivors' identifier list is the old identifier list with some entries
dropped, in order, and every individual post-update track is either the
lifecycle step of a specific pre-update track carrying that very track's
identifier, or a freshly spawned track. -/
theorem track_id_invariants (cfg : TrackerCfg) (assoc : Assoc)
    (frames : List (List TrackerDet)) (st0 st : TrackerState)
    (dets : List TrackerDet) (t' : Track)
    (h0 : st0.tracks = []) :
    (createdIds cfg assoc st0 frames).Nodup ∧
    ((runTracker cfg assoc st0 frames).tracks.map Track.track_id).Nodup ∧
    ((update_tracks cfg assoc st dets).tracks =
      agedTracks cfg (assoc st.tracks dets) 0 st.tracks
        ++ frameNewTracks assoc st dets) ∧
    ((agedTracks cfg (assoc st.tracks dets) 0 st.tracks).map Track.track_id).Sublist
      (st.tracks.map Track.track_id) ∧
    (t' ∈ (update_tracks cfg assoc st dets).tracks →
      (∃ t ∈ st.tracks, ∃ b, stepTrack cfg b t = some t' ∧
        t'.track_id = t.track_id) ∨
      t' ∈ frameNewTracks assoc st dets) := by
  refine ⟨createdIds_nodup cfg assoc frames st0, ?_, rfl,
    agedTracks_ids_sublist cfg _ st.tracks 0,
    fun h => mem_update_tracks_step h⟩
  have hwf : st0.Wf := by
    constructor
    · intro t ht
      rw [h0] at ht
      exact absurd ht (List.not_mem_nil t)
    · rw [h0]
      exact List.Pairwise.nil
  exact (runTracker_wf hwf).2

/-- Witness for C8 at a concrete two-frame run (one detection per frame,
nothing matched) and a concrete single update, whose aged survivor
exercises the per-track immutability branch. -/
theorem track_id_invariants_witness :
    (createdIds env0.cfg env0.assoc ⟨[], 0⟩ [[det0], [det0]]).Nodup ∧
    ((runTracker env0.cfg env0.assoc ⟨[], 0⟩ [[det0], [det0]]).tracks.map
      Track.track_id).Nodup ∧
    ((update_tracks env0.cfg env0.assoc st1 [det0]).tracks =
      agedTracks env0.cfg (env0.assoc st1.tracks [det0]) 0 st1.tracks
        ++ frameNewTracks env0.assoc st1 [det0]) ∧
    ((agedTracks env0.cfg (env0.assoc st1.tracks [det0]) 0 st1.tracks).map
      Track.track_id).Sublist (st1.tracks.map Track.track_id) ∧
    ((⟨5, TrackState.Confirmed, 3, 1, "person"⟩ : Track) ∈
        (update_tracks env0.cfg env0.assoc st1 [det0]).tracks →
      (∃ t ∈ st1.tracks, ∃ b,
        stepTrack env0.cfg b t = some ⟨5, TrackState.Confirmed, 3, 1, "person"⟩ ∧
        (⟨5, TrackState.Confirmed, 3, 1, "person"⟩ : Track).track_id = t.track_id) ∨
      (⟨5, TrackState.Confirmed, 3, 1, "person"⟩ : Track) ∈
        frameNewTracks env0.assoc st1 [det0]) :=
  track_id_invariants env0.cfg env0.assoc [[det0], [det0]] ⟨[], 0⟩ st1 [det0]
    ⟨5, TrackState.Confirmed, 3, 1, "person"⟩ rfl
